import Mathlib

/-!
Verification development for the neural-ODEs repository.

The repository couples neural-network classifier glue (`src/neuralodes/models/model.py`)
with a Butcher-tableau-driven explicit Runge-Kutta ODE solver (the `ode_solver`
package, whose interface and behaviour are documented in the design spec).
This file gives a shallow embedding of both parts:

* the model-assembly code of `model.py` is embedded directly from the source
  (Python truthiness, default arguments, the dead `reshape` line, the
  conditional batch-norm construction);
* the ODE core (tableau, stepper, step-size controller, integrator) is not
  shipped under `src/`, so it is modelled from the spec's algorithm
  descriptions, with real tensors replaced by finitely indexed families of
  exact rationals, and IEEE non-finite values (NaN/Inf) modelled by an
  absorbing element `FloatVal.nonfin`.
-/

/-! ## Python value model for `model.py` -/

/-- A Python value as far as the `with_norm` flags of `model.py` are concerned:
either a `bool` or a `str`.  The shipped code mixes the boolean `False` with
the string literal `"False"`. -/
inductive PyVal where
  | bool (b : Bool)
  | str (s : String)
deriving DecidableEq

/-- Python truthiness for `PyVal`: `False` is falsy, any non-empty string
(including `"False"`) is truthy, the empty string is falsy. -/
def PyVal.truthy : PyVal → Bool
  | .bool b => b
  | .str s => !(s.isEmpty)

/-! ## Embedding of `src/neuralodes/models/model.py` -/

/-- Default of the `with_norm` parameter of `ResNetLinear.__init__`
(`model.py` line 20): the boolean `False`. -/
def ResNetLinear.default_with_norm : PyVal := PyVal.bool false

/-- Default of the `with_norm` parameter of `ResNetConv.__init__`
(`model.py` line 62): the boolean `False`. -/
def ResNetConv.default_with_norm : PyVal := PyVal.bool false

/-- Default of the `with_norm` parameter of `ConvolutionalODEClassifier.__init__`
(`model.py` line 110): the string literal `"False"`. -/
def ConvolutionalODEClassifier.default_with_norm : PyVal := PyVal.str ("False")

/-- The `with_norm` values that `ConvolutionalODEClassifier.__init__` hands to
its three submodules (`model.py` lines 120-146). -/
structure ConvODEClassifierSub where
  ode_layer_with_norm : PyVal
  downsampler_with_norm : PyVal
  head_with_norm : PyVal
deriving DecidableEq

/-- `ConvolutionalODEClassifier.__init__` forwards its `with_norm` argument
unchanged to the ODE layer (line 124), the downsampler (line 137) and the
classification head (line 145). -/
def ConvolutionalODEClassifier.initSub (with_norm : PyVal) : ConvODEClassifierSub :=
  { ode_layer_with_norm := with_norm
    downsampler_with_norm := with_norm
    head_with_norm := with_norm }

/-- `ResNetLinear.__init__` lines 35-37: `self.norm = None`, then
`if with_norm: self.norm = nn.BatchNorm1d(input_size)`, under Python
truthiness of `with_norm`.  `batchNorm1d` abstracts the `nn.BatchNorm1d`
constructor as a function from the feature size to a tensor map. -/
def ResNetLinear.initNorm {T : Type} (with_norm : PyVal) (batchNorm1d : ℕ → T → T)
    (input_size : ℕ) : Option (T → T) :=
  if with_norm.truthy = true then some (batchNorm1d input_size) else none

/-- The tensor operations `ResNetLinear.forward` uses from its input:
`x.shape[0]` and `x.reshape(b, -1)`. -/
structure TensorOps (T : Type) where
  shape0 : T → ℕ
  reshape2 : T → ℕ → T

/-- The submodules of a constructed `ResNetLinear`, as tensor maps. -/
structure ResNetLinearM (T : Type) where
  residual_blocks : T → T
  norm : Option (T → T)
  classification_head : T → T

/-- `ResNetLinear.forward` (`model.py` lines 44-51), transcribed exactly:
`b = x.shape[0]`; the result of `x.reshape(b, -1)` is computed and discarded
(it is not assigned back to `x`); then the residual blocks, the optional
norm and the classification head are applied to the original `x`. -/
def ResNetLinearM.forward {T : Type} (ops : TensorOps T) (m : ResNetLinearM T) (x : T) : T :=
  let b := ops.shape0 x
  let _reshaped := ops.reshape2 x b
  let x1 := m.residual_blocks x
  let x2 := match m.norm with
    | some nf => nf x1
    | none => x1
  m.classification_head x2

/-- `ResNetLinear.forward` with the dead `x.reshape(b, -1)` line removed:
the pipeline the spec describes. -/
def ResNetLinearM.forwardNoReshape {T : Type} (m : ResNetLinearM T) (x : T) : T :=
  let x1 := m.residual_blocks x
  let x2 := match m.norm with
    | some nf => nf x1
    | none => x1
  m.classification_head x2

/-! ## ODE solver core, modelled from the spec

The `ode_solver` package is imported by `model.py` but not shipped under
`src/`, so every definition below is modelled from the spec's component
design (sections 3, 4.1-4.4 and 7). -/

/-- Modelled from the spec: the solver error taxonomy of section 7, missing
with the `ode_solver` package. -/
inductive SolverError where
  | malformedTableau
  | nonFiniteState
  | stepSizeUnderflow
  | maxStepsExceeded
deriving DecidableEq

/-- Modelled from the spec: one scalar slot of a state tensor.  Finite
floating-point numbers become exact rationals `fin q`; NaN and Inf collapse
into the absorbing `nonfin`, mirroring IEEE propagation through the
arithmetic the stepper performs. -/
inductive FloatVal where
  | fin (q : ℚ)
  | nonfin
deriving DecidableEq

namespace FloatVal

/-- Addition with non-finite absorption, as IEEE addition behaves on the
values the stepper combines. -/
def add : FloatVal → FloatVal → FloatVal
  | fin a, fin b => fin (a + b)
  | _, _ => nonfin

/-- Multiplication with non-finite absorption (`0 * NaN = NaN`, `0 * Inf = NaN`,
so a non-finite factor always yields a non-finite product). -/
def mul : FloatVal → FloatVal → FloatVal
  | fin a, fin b => fin (a * b)
  | _, _ => nonfin

/-- Subtraction with non-finite absorption (`NaN - NaN = NaN`, `Inf - Inf = NaN`). -/
def sub : FloatVal → FloatVal → FloatVal
  | fin a, fin b => fin (a - b)
  | _, _ => nonfin

/-- Finiteness test, the reduction the stepper's non-finite check uses. -/
def isFin : FloatVal → Bool
  | fin _ => true
  | nonfin => false

instance : Mul FloatVal := ⟨FloatVal.mul⟩

instance : Sub FloatVal := ⟨FloatVal.sub⟩

theorem add_assoc_def (a b c : FloatVal) : add (add a b) c = add a (add b c) := by
  cases a <;> cases b <;> cases c <;> simp [FloatVal.add, add_assoc]

theorem zero_add_def (a : FloatVal) : add (fin 0) a = a := by
  cases a <;> simp [FloatVal.add]

theorem add_zero_def (a : FloatVal) : add a (fin 0) = a := by
  cases a <;> simp [FloatVal.add]

theorem add_comm_def (a b : FloatVal) : add a b = add b a := by
  cases a <;> cases b <;> simp [FloatVal.add, add_comm]

instance : AddCommMonoid FloatVal where
  add := FloatVal.add
  zero := FloatVal.fin 0
  add_assoc := add_assoc_def
  zero_add := zero_add_def
  add_zero := add_zero_def
  add_comm := add_comm_def
  nsmul n a := Nat.rec (fin 0) (fun _ ih => add ih a) n
  nsmul_zero _a := rfl
  nsmul_succ _n _a := rfl

@[simp] theorem fin_add_fin (a b : ℚ) : fin a + fin b = fin (a + b) := rfl

@[simp] theorem fin_mul_fin (a b : ℚ) : fin a * fin b = fin (a * b) := rfl

@[simp] theorem fin_sub_fin (a b : ℚ) : fin a - fin b = fin (a - b) := rfl

@[simp] theorem add_nonfin (a : FloatVal) : a + nonfin = nonfin := by
  cases a <;> rfl

@[simp] theorem nonfin_add (a : FloatVal) : nonfin + a = nonfin := rfl

@[simp] theorem mul_nonfin (a : FloatVal) : a * nonfin = nonfin := by
  cases a <;> rfl

@[simp] theorem nonfin_mul (a : FloatVal) : nonfin * a = nonfin := rfl

@[simp] theorem isFin_fin (q : ℚ) : isFin (fin q) = true := rfl

@[simp] theorem isFin_nonfin : isFin nonfin = false := rfl

theorem zero_def : (0 : FloatVal) = fin 0 := rfl

end FloatVal

/-- Modelled from the spec: a state tensor of fixed shape, a finitely
indexed family of scalar slots. -/
abbrev Tensor (ι : Type) := ι → FloatVal

/-- Modelled from the spec: the vector-field contract `f(t, y) -> dy/dt`,
same shape in and out. -/
abbrev VectorField (ι : Type) := ℚ → Tensor ι → Tensor ι

/-- Modelled from the spec (section 3): a Butcher tableau with stage offsets
`c`, a ragged strictly-lower-triangular coupling matrix `a` (row `i` holds
the `i` coefficients `a[i][j]`, `j < i`), primary weights `b_low` and an
optional embedded weight vector `b_high`. -/
structure Tableau where
  c : List ℚ
  a : List (List ℚ)
  b_low : List ℚ
  b_high : Option (List ℚ)

/-- Modelled from the spec (section 4.1): the invariants a `Tableau`
construction validates — at least one stage, matching lengths and an
explicit (strictly lower-triangular) coupling matrix. -/
def Tableau.wf (tab : Tableau) : Prop :=
  1 ≤ tab.c.length ∧
  tab.b_low.length = tab.c.length ∧
  tab.a.length = tab.c.length ∧
  (∀ i, i < tab.a.length → (tab.a.getD i []).length = i) ∧
  (match tab.b_high with
   | none => True
   | some bh => bh.length = tab.c.length)

/-- Modelled from the spec (sections 3 and 4.1): the shipped Explicit Euler
tableau — one stage, `c=[0]`, `a=[[]]`, `b_low=[1]`, no embedded pair. -/
def ExplicitEuler : Tableau :=
  { c := [0], a := [[]], b_low := [1], b_high := none }

/-- Modelled from the spec: the weighted combination `sum_i ws[i] * ks[i]`
of stage derivatives, evaluated slot-wise. -/
def wsum {ι : Type} (ws : List ℚ) (ks : List (Tensor ι)) (p : ι) : FloatVal :=
  (List.zipWith (fun w k => FloatVal.fin w * k p) ws ks).foldr (· + ·) (FloatVal.fin 0)

/-- Modelled from the spec (section 4.2): the first `n` stage derivatives of
one step, computed in order; stage `i` is
`k_i = field(t + c[i]*h, y + h * sum_{j<i} a[i][j]*k_j)`. -/
def stagesUpTo {ι : Type} (field : VectorField ι) (tab : Tableau) (t : ℚ)
    (y : Tensor ι) (h : ℚ) : ℕ → List (Tensor ι)
  | 0 => []
  | n + 1 =>
    let ks := stagesUpTo field tab t y h n
    ks ++ [field (t + tab.c.getD n 0 * h)
      (fun p => y p + FloatVal.fin h * wsum (tab.a.getD n []) ks p)]

/-- Modelled from the spec (section 4.2): all stage derivatives of one step. -/
def stages {ι : Type} (field : VectorField ι) (tab : Tableau) (t : ℚ)
    (y : Tensor ι) (h : ℚ) : List (Tensor ι) :=
  stagesUpTo field tab t y h tab.c.length

/-- Modelled from the spec (section 3): the stepper's result, the candidate
next state and the embedded error estimate when the tableau has one. -/
structure StepOutcome (ι : Type) where
  y_next : Tensor ι
  error_estimate : Option (Tensor ι)

/-- Modelled from the spec (section 4.2): the once-per-step reduction check
that no slot of a tensor is non-finite. -/
def allFin {ι : Type} [Fintype ι] (v : Tensor ι) : Bool :=
  decide (∀ p, (v p).isFin = true)

/-- Modelled from the spec (section 4.2): one explicit Runge-Kutta step.
After the stages, `y_low = y + h * sum_i b_low[i]*k_i` is the advanced
solution; with an embedded pair, `y_high = y + h * sum_i b_high[i]*k_i` and
the error estimate is `y_high - y_low`.  A non-finite result surfaces
`NonFiniteStateError` instead of being returned. -/
def step {ι : Type} [Fintype ι] (field : VectorField ι) (tab : Tableau)
    (t : ℚ) (y : Tensor ι) (h : ℚ) : Except SolverError (StepOutcome ι) :=
  let ks := stages field tab t y h
  let ylow : Tensor ι := fun p => y p + FloatVal.fin h * wsum tab.b_low ks p
  match tab.b_high with
  | none =>
    if allFin ylow then Except.ok ⟨ylow, none⟩ else Except.error SolverError.nonFiniteState
  | some bh =>
    let yhigh : Tensor ι := fun p => y p + FloatVal.fin h * wsum bh ks p
    let errv : Tensor ι := fun p => yhigh p - ylow p
    if allFin ylow && allFin errv then Except.ok ⟨ylow, some errv⟩
    else Except.error SolverError.nonFiniteState

/-- Modelled from the spec (section 4.3): the step-size controller interface
the integrator drives — from the stepper's error estimate, the current and
candidate states and the (clamped) step size, decide accept/reject and the
next trial step size, or fail. -/
abbrev Controller (ι : Type) :=
  Option (Tensor ι) → Tensor ι → Tensor ι → ℚ → Except SolverError (Bool × ℚ)

/-- Modelled from the spec (section 4.3): fixed-step mode — with no embedded
pair the controller always accepts and returns the configured step `dt`
unchanged. -/
def fixedCtrl {ι : Type} (dt : ℚ) : Controller ι :=
  fun _ _ _ _ => Except.ok (true, dt)

/-- Modelled from the spec (section 4.4): the integrator's loop state
`Running {t, y, h}`. -/
abbrev LoopSt (ι : Type) := ℚ × Tensor ι × ℚ

/-- Modelled from the spec (section 4.4): one iteration of the integration
loop.  The trial step is clamped to `h = min(h, t1 - t)` so the final step
lands exactly on `t1`; on acceptance `(t, y)` advance and the controller's
`h_next` seeds the next trial; on rejection `(t, y)` are kept and only the
step size changes. -/
def integrateStep {ι : Type} [Fintype ι] (field : VectorField ι) (tab : Tableau)
    (ctrl : Controller ι) (t1 : ℚ) (s : LoopSt ι) : Except SolverError (LoopSt ι) :=
  let t := s.1
  let y := s.2.1
  let hc := min s.2.2 (t1 - t)
  match step field tab t y hc with
  | Except.error e => Except.error e
  | Except.ok out =>
    match ctrl out.error_estimate y out.y_next hc with
    | Except.error e => Except.error e
    | Except.ok (acc, hn) =>
      if acc then Except.ok (t + hc, out.y_next, hn) else Except.ok (t, y, hn)

/-- Modelled from the spec (section 4.4): the integration loop with a
`max_steps` fuel bound; terminal `Done` as soon as `t >= t1`, terminal
`Failed` when the fuel runs out or a stepper/controller error propagates. -/
def integrateGo {ι : Type} [Fintype ι] (field : VectorField ι) (tab : Tableau)
    (ctrl : Controller ι) (t1 : ℚ) : ℕ → LoopSt ι → Except SolverError (Tensor ι)
  | 0, s =>
    if t1 ≤ s.1 then Except.ok s.2.1 else Except.error SolverError.maxStepsExceeded
  | n + 1, s =>
    if t1 ≤ s.1 then Except.ok s.2.1
    else
      match integrateStep field tab ctrl t1 s with
      | Except.error e => Except.error e
      | Except.ok s' => integrateGo field tab ctrl t1 n s'

/-- Modelled from the spec (section 4.4): drive the stepper and controller
from `t0` to `t1` starting at `y0` with initial trial step `dt`. -/
def integrate {ι : Type} [Fintype ι] (field : VectorField ι) (tab : Tableau)
    (ctrl : Controller ι) (t0 t1 : ℚ) (y0 : Tensor ι) (dt : ℚ)
    (maxSteps : ℕ) : Except SolverError (Tensor ι) :=
  integrateGo field tab ctrl t1 maxSteps (t0, y0, dt)

/-- Modelled from the spec (section 4.4): the loop state after exactly `n`
iterations of the integration loop, errors propagating. -/
def stepN {ι : Type} [Fintype ι] (field : VectorField ι) (tab : Tableau)
    (ctrl : Controller ι) (t1 : ℚ) : ℕ → LoopSt ι → Except SolverError (LoopSt ι)
  | 0, s => Except.ok s
  | n + 1, s =>
    match integrateStep field tab ctrl t1 s with
    | Except.error e => Except.error e
    | Except.ok s' => stepN field tab ctrl t1 n s'

/-- Modelled from the spec (section 4.4): the loop states the integration
loop reaches from a given start by successful iterations. -/
inductive Reaches {ι : Type} [Fintype ι] (field : VectorField ι) (tab : Tableau)
    (ctrl : Controller ι) (t1 : ℚ) : LoopSt ι → LoopSt ι → Prop where
  | refl (s : LoopSt ι) : Reaches field tab ctrl t1 s s
  | next {a b c : LoopSt ι} : Reaches field tab ctrl t1 a b →
      integrateStep field tab ctrl t1 b = Except.ok c → Reaches field tab ctrl t1 a c

/-- Modelled from the spec: the scalar linear decay vector field
`dy/dt = -y` of the testable-properties section, slot-wise `-y`. -/
def decayField {ι : Type} : VectorField ι :=
  fun _ y p => FloatVal.fin (-1) * y p

/-! ## Step-size controller, modelled from the spec (section 4.3)

The accept/reject rule and the step-size update involve the real power
`e^(-1/(order+1))` and a root-mean-square norm, so this component lives over
the reals. -/

/-- Modelled from the spec (section 4.3): clamp `x` into `[lo, hi]`. -/
noncomputable def clampR (lo hi x : ℝ) : ℝ :=
  if x < lo then lo else if hi < x then hi else x

/-- Modelled from the spec (section 4.3): the scaled RMS error norm
`e = ||error_estimate / (atol + rtol * max(|y_current|, |y_next|))||`. -/
noncomputable def scaledErrNorm {ι : Type} [Fintype ι] (atol rtol : ℝ)
    (y ynext err : ι → ℝ) : ℝ :=
  Real.sqrt ((∑ p, (err p / (atol + rtol * max |y p| |ynext p|)) ^ 2) / (Fintype.card ι))

/-- Modelled from the spec (section 4.3): the step-size update
`h_next = h * clamp(safety_factor * e^(-1/(order+1)), min_factor, max_factor)`
with `safety_factor = 0.9`, `min_factor = 0.2`, `max_factor = 5.0`. -/
noncomputable def hNextR (ord : ℕ) (e h : ℝ) : ℝ :=
  h * clampR (1 / 5) 5 ((9 / 10) * e ^ (-(1 : ℝ) / ((ord : ℝ) + 1)))

/-- Modelled from the spec (section 4.3): the controller decision
`decide(error_estimate, atol, rtol, y_current, h_current)` — compute the
scaled error norm `e`, accept iff `e <= 1.0`, update the step size, and
raise `StepSizeUnderflowError` when `h_next` falls below the configured
minimum step. -/
noncomputable def decideCtrl {ι : Type} [Fintype ι] (ord : ℕ) (minStep atol rtol : ℝ)
    (y ynext err : ι → ℝ) (h : ℝ) : Except SolverError (Bool × ℝ) :=
  let e := scaledErrNorm atol rtol y ynext err
  let hn := hNextR ord e h
  if hn < minStep then Except.error SolverError.stepSizeUnderflow
  else Except.ok (if e ≤ 1 then true else false, hn)

/-- Modelled from the spec (section 4.3): the trial step size after `n`
consecutive rejections at constant scaled error `e`, each applying the
controller's shrink formula to the previous trial size. -/
noncomputable def shrinkIter (ord : ℕ) (e : ℝ) : ℕ → ℝ → ℝ
  | 0, h => h
  | n + 1, h => hNextR ord e (shrinkIter ord e n h)

/-! ## Claim theorems for `model.py` -/

/-- C8: the default value of `with_norm` in `ConvolutionalODEClassifier.__init__`
is the string literal `"False"` (not the boolean `False`), and the constructor
passes the `with_norm` argument unchanged to the ODE layer, the downsampler
and the classification head, whereas `ResNetLinear` and `ResNetConv` default
`with_norm` to the boolean `False`. -/
theorem claim_c8_with_norm_string_default :
    ConvolutionalODEClassifier.default_with_norm = PyVal.str ("False") ∧
    ConvolutionalODEClassifier.default_with_norm ≠ PyVal.bool false ∧
    (∀ wn : PyVal,
      (ConvolutionalODEClassifier.initSub wn).ode_layer_with_norm = wn ∧
      (ConvolutionalODEClassifier.initSub wn).downsampler_with_norm = wn ∧
      (ConvolutionalODEClassifier.initSub wn).head_with_norm = wn) ∧
    ResNetLinear.default_with_norm = PyVal.bool false ∧
    ResNetConv.default_with_norm = PyVal.bool false :=
  ⟨rfl, by decide, fun _wn => ⟨rfl, rfl, rfl⟩, rfl, rfl⟩

/-- C9: `ResNetLinear.forward` discards the result of `x.reshape(b, -1)`, so
for every tensor type, every constructed model and every input `x` it equals
the same pipeline with the reshape line removed — residual blocks, optional
norm and classification head all receive the original `x`. -/
theorem claim_c9_reshape_discarded {T : Type} (ops : TensorOps T)
    (m : ResNetLinearM T) (x : T) :
    ResNetLinearM.forward ops m x = ResNetLinearM.forwardNoReshape m x := rfl

/-- C10: a falsy `with_norm` (such as the default boolean `False`) makes
`ResNetLinear` construct no norm and apply no normalization; a truthy
`with_norm` (such as any non-empty string, including `"False"`) constructs a
`BatchNorm1d` over `input_size` and applies it between the residual blocks
and the classification head. -/
theorem claim_c10_with_norm_truthiness {T : Type} (batchNorm1d : ℕ → T → T)
    (input_size : ℕ) :
    (∀ wn : PyVal, wn.truthy = false →
      ResNetLinear.initNorm wn batchNorm1d input_size = none) ∧
    PyVal.truthy (PyVal.bool false) = false ∧
    (∀ wn : PyVal, wn.truthy = true →
      ResNetLinear.initNorm wn batchNorm1d input_size = some (batchNorm1d input_size)) ∧
    (∀ s : String, s.isEmpty = false → PyVal.truthy (PyVal.str s) = true) ∧
    PyVal.truthy (PyVal.str ("False")) = true ∧
    (∀ (ops : TensorOps T) (m : ResNetLinearM T) (x : T), m.norm = none →
      ResNetLinearM.forward ops m x = m.classification_head (m.residual_blocks x)) ∧
    (∀ (ops : TensorOps T) (m : ResNetLinearM T) (nf : T → T) (x : T), m.norm = some nf →
      ResNetLinearM.forward ops m x = m.classification_head (nf (m.residual_blocks x))) := by
  refine ⟨fun wn hw => ?_, rfl, fun wn hw => ?_, fun s hs => ?_, by decide,
    fun ops m x hm => ?_, fun ops m nf x hm => ?_⟩
  · simp [ResNetLinear.initNorm, hw]
  · simp [ResNetLinear.initNorm, hw]
  · simp [PyVal.truthy, hs]
  · simp [ResNetLinearM.forward, hm]
  · simp [ResNetLinearM.forward, hm]

/-- Witness for C10 at concrete inputs: the boolean default constructs no
norm, while the string `"False"` constructs the batch norm over the given
feature size. -/
theorem claim_c10_witness :
    ResNetLinear.initNorm (PyVal.bool false) (fun (n : ℕ) (x : ℕ) => x + n) 3 = none ∧
    ResNetLinear.initNorm (PyVal.str ("False")) (fun (n : ℕ) (x : ℕ) => x + n) 3 =
      some (fun (x : ℕ) => x + 3) :=
  ⟨(claim_c10_with_norm_truthiness (fun n x => x + n) 3).1 (PyVal.bool false) (by decide),
   (claim_c10_with_norm_truthiness (fun n x => x + n) 3).2.2.1 (PyVal.str ("False")) (by decide)⟩

/-! ## Claim theorems for the ODE core -/

/-- C5: `integrate` called with `t0 == t1` returns `y0` itself (the exact
input tensor, unchanged) for every vector field, tableau, controller,
initial trial step and fuel — in particular the result does not depend on
the vector field, which is never evaluated: the loop terminates before its
first step. -/
theorem claim_c5_zero_width_interval {ι : Type} [Fintype ι] (field : VectorField ι)
    (tab : Tableau) (ctrl : Controller ι) (t0 : ℚ) (y0 : Tensor ι) (dt : ℚ)
    (maxSteps : ℕ) :
    integrate field tab ctrl t0 t0 y0 dt maxSteps = Except.ok y0 := by
  cases maxSteps <;> simp [integrate, integrateGo]

/-! ## Stage arithmetic lemmas -/

/-- The all-zero default tensor used when indexing stage lists. -/
def zeroT {ι : Type} : Tensor ι := fun _ => FloatVal.fin 0

theorem stagesUpTo_length {ι : Type} (field : VectorField ι) (tab : Tableau)
    (t : ℚ) (y : Tensor ι) (h : ℚ) (n : ℕ) :
    (stagesUpTo field tab t y h n).length = n := by
  induction n with
  | zero => rfl
  | succ n ih => simp [stagesUpTo, ih]

theorem stagesUpTo_succ {ι : Type} (field : VectorField ι) (tab : Tableau)
    (t : ℚ) (y : Tensor ι) (h : ℚ) (n : ℕ) :
    stagesUpTo field tab t y h (n + 1) =
      stagesUpTo field tab t y h n ++
        [field (t + tab.c.getD n 0 * h)
          (fun p => y p + FloatVal.fin h *
            wsum (tab.a.getD n []) (stagesUpTo field tab t y h n) p)] := rfl

theorem stagesUpTo_extend {ι : Type} (field : VectorField ι) (tab : Tableau)
    (t : ℚ) (y : Tensor ι) (h : ℚ) {m n : ℕ} (hmn : m ≤ n) :
    ∃ l, stagesUpTo field tab t y h n = stagesUpTo field tab t y h m ++ l := by
  induction n with
  | zero =>
    refine ⟨[], ?_⟩
    simp [Nat.le_zero.mp hmn]
  | succ n ih =>
    rcases Nat.lt_or_ge m (n + 1) with hlt | hge
    · obtain ⟨l, hl⟩ := ih (Nat.lt_succ_iff.mp hlt)
      rw [stagesUpTo_succ, hl, List.append_assoc]
      exact ⟨_, rfl⟩
    · refine ⟨[], ?_⟩
      simp [Nat.le_antisymm hmn hge]

theorem stagesUpTo_getD_stable {ι : Type} (field : VectorField ι) (tab : Tableau)
    (t : ℚ) (y : Tensor ι) (h : ℚ) {j m n : ℕ} (hj : j < m) (hmn : m ≤ n) :
    (stagesUpTo field tab t y h n).getD j zeroT =
      (stagesUpTo field tab t y h m).getD j zeroT := by
  obtain ⟨l, hl⟩ := stagesUpTo_extend field tab t y h hmn
  rw [hl, List.getD_append]
  rw [stagesUpTo_length]
  exact hj

theorem wsum_eq_sum {ι : Type} (ws : List ℚ) (ks : List (Tensor ι)) (p : ι)
    (hlen : ws.length = ks.length) :
    wsum ws ks p = ∑ j ∈ Finset.range ws.length,
      FloatVal.fin (ws.getD j 0) * (ks.getD j zeroT) p := by
  induction ws generalizing ks with
  | nil => simp [wsum, FloatVal.zero_def]
  | cons w ws ih =>
    cases ks with
    | nil => simp at hlen
    | cons k ks =>
      have hlen' : ws.length = ks.length := by simpa using hlen
      simp only [List.length_cons]
      rw [Finset.sum_range_succ']
      have hw : wsum (w :: ws) (k :: ks) p = FloatVal.fin w * k p + wsum ws ks p := rfl
      rw [hw, ih ks hlen']
      simp [List.getD_cons_succ, List.getD_cons_zero, add_comm]

theorem stages_length {ι : Type} (field : VectorField ι) (tab : Tableau)
    (t : ℚ) (y : Tensor ι) (h : ℚ) :
    (stages field tab t y h).length = tab.c.length :=
  stagesUpTo_length field tab t y h tab.c.length

/-- The shipped Explicit Euler tableau satisfies the construction invariants. -/
theorem ExplicitEuler_wf : Tableau.wf ExplicitEuler :=
  ⟨by decide, rfl, rfl, by decide, trivial⟩

/-- Stage `i` of a step is the vector field at stage time `t + c[i]*h` and
stage state `y + h * sum_{j<i} a[i][j] * k_j`. -/
theorem stages_getD {ι : Type} (field : VectorField ι) (tab : Tableau)
    (t : ℚ) (y : Tensor ι) (h : ℚ) (hwf : tab.wf) {i : ℕ} (hi : i < tab.c.length) :
    (stages field tab t y h).getD i zeroT =
      field (t + tab.c.getD i 0 * h)
        (fun p => y p + FloatVal.fin h * ∑ j ∈ Finset.range i,
          FloatVal.fin ((tab.a.getD i []).getD j 0) *
            (stages field tab t y h).getD j zeroT p) := by
  obtain ⟨_hs, _hbl, hal, har, _hbh⟩ := hwf
  have hrow : (tab.a.getD i []).length = i := har i (by rw [hal]; exact hi)
  simp only [stages]
  have hleft : (stagesUpTo field tab t y h tab.c.length).getD i zeroT =
      (stagesUpTo field tab t y h (i + 1)).getD i zeroT :=
    stagesUpTo_getD_stable field tab t y h (Nat.lt_succ_self i) hi
  rw [hleft, stagesUpTo_succ]
  rw [List.getD_append_right]
  · rw [stagesUpTo_length, Nat.sub_self]
    show field _ _ = field _ _
    have harg : (fun p => y p + FloatVal.fin h *
        wsum (tab.a.getD i []) (stagesUpTo field tab t y h i) p) =
        (fun p => y p + FloatVal.fin h * ∑ j ∈ Finset.range i,
          FloatVal.fin ((tab.a.getD i []).getD j 0) *
            (stagesUpTo field tab t y h tab.c.length).getD j zeroT p) := by
      funext p
      rw [wsum_eq_sum]
      · rw [hrow]
        refine congrArg _ (congrArg _ (Finset.sum_congr rfl fun j hj => ?_))
        rw [stagesUpTo_getD_stable field tab t y h (Finset.mem_range.mp hj) hi.le]
      · rw [hrow, stagesUpTo_length]
    rw [harg]
  · rw [stagesUpTo_length]

/-- What a successful step returns: the low-order combination as the next
state (which passed the non-finite check), no error estimate without an
embedded pair, and `y_high - y_low` with one. -/
theorem step_ok_spec {ι : Type} [Fintype ι] {field : VectorField ι} {tab : Tableau}
    {t : ℚ} {y : Tensor ι} {h : ℚ} {out : StepOutcome ι}
    (hok : step field tab t y h = Except.ok out) :
    out.y_next = (fun p => y p + FloatVal.fin h * wsum tab.b_low (stages field tab t y h) p) ∧
    allFin out.y_next = true ∧
    (tab.b_high = none → out.error_estimate = none) ∧
    (∀ bh, tab.b_high = some bh → out.error_estimate =
      some (fun p => (fun q => y q + FloatVal.fin h * wsum bh (stages field tab t y h) q) p -
        (fun q => y q + FloatVal.fin h * wsum tab.b_low (stages field tab t y h) q) p)) := by
  cases hbh : tab.b_high with
  | none =>
    simp only [step, hbh] at hok
    split at hok
    · cases hok
      refine ⟨rfl, by assumption, fun _ => rfl, fun bh hbh' => ?_⟩
      exact Option.noConfusion hbh'
    · cases hok
  | some bh0 =>
    simp only [step, hbh] at hok
    split at hok
    · cases hok
      rename_i hcond
      rw [Bool.and_eq_true] at hcond
      refine ⟨rfl, hcond.1, fun hnone => ?_, fun bh hsome => ?_⟩
      · exact Option.noConfusion hnone
      · injection hsome with hsome'
        subst hsome'
        rfl
    · cases hok

/-- C2: for every (well-formed) tableau, vector field, state `(t, y)` and
step size `h`, the stepper evaluates the stages in order as
`k_i = field(t + c[i]*h, y + h * sum_{j<i} a[i][j]*k_j)`, a successful step
returns `y_next = y + h * sum_i b_low[i]*k_i` — the low-order combination,
never the high-order one — no error estimate when `b_high` is absent, and
`error_estimate = y_high - y_low` with
`y_high = y + h * sum_i b_high[i]*k_i` when `b_high` is present. -/
theorem claim_c2_step_stage_arithmetic {ι : Type} [Fintype ι] (field : VectorField ι)
    (tab : Tableau) (t : ℚ) (y : Tensor ι) (h : ℚ) (hwf : tab.wf) :
    (∀ i, i < tab.c.length → (stages field tab t y h).getD i zeroT =
      field (t + tab.c.getD i 0 * h)
        (fun p => y p + FloatVal.fin h * ∑ j ∈ Finset.range i,
          FloatVal.fin ((tab.a.getD i []).getD j 0) *
            (stages field tab t y h).getD j zeroT p)) ∧
    (∀ out, step field tab t y h = Except.ok out →
      (out.y_next = fun p => y p + FloatVal.fin h * ∑ i ∈ Finset.range tab.c.length,
        FloatVal.fin (tab.b_low.getD i 0) * (stages field tab t y h).getD i zeroT p) ∧
      (tab.b_high = none → out.error_estimate = none) ∧
      (∀ bh, tab.b_high = some bh → out.error_estimate =
        some (fun p =>
          (y p + FloatVal.fin h * ∑ i ∈ Finset.range tab.c.length,
            FloatVal.fin (bh.getD i 0) * (stages field tab t y h).getD i zeroT p) -
          out.y_next p))) := by
  obtain ⟨hs, hbl, hal, har, hbh⟩ := hwf
  have hwf' : tab.wf := ⟨hs, hbl, hal, har, hbh⟩
  have hlow : ∀ p, wsum tab.b_low (stages field tab t y h) p =
      ∑ i ∈ Finset.range tab.c.length,
        FloatVal.fin (tab.b_low.getD i 0) * (stages field tab t y h).getD i zeroT p := by
    intro p
    rw [wsum_eq_sum _ _ _ (by rw [hbl, stages_length]), hbl]
  refine ⟨fun i hi => stages_getD field tab t y h hwf' hi, fun out hok => ?_⟩
  obtain ⟨hynext, _hfin, hnone, hsome⟩ := step_ok_spec hok
  refine ⟨?_, hnone, fun bh hbh' => ?_⟩
  · rw [hynext]
    funext p
    rw [hlow p]
  · have hbhlen : bh.length = tab.c.length := by
      rw [hbh'] at hbh
      exact hbh
    have hhigh : ∀ p, wsum bh (stages field tab t y h) p =
        ∑ i ∈ Finset.range tab.c.length,
          FloatVal.fin (bh.getD i 0) * (stages field tab t y h).getD i zeroT p := by
      intro p
      rw [wsum_eq_sum _ _ _ (by rw [hbhlen, stages_length]), hbhlen]
    rw [hsome bh hbh']
    refine congrArg _ (funext fun p => ?_)
    rw [hynext]
    simp only
    rw [hhigh p, hlow p]

/-- A constant-one vector field on the one-slot tensor shape, used to
exercise the stepper at concrete inputs. -/
def constOneField : VectorField Unit := fun _ _ _ => FloatVal.fin 1

/-- A vector field returning a non-finite value (NaN) at every evaluation. -/
def nanField : VectorField Unit := fun _ _ _ => FloatVal.nonfin

/-- Witness for C2 at a concrete input: stage 0 of an Explicit Euler step of
the constant-one field is the field evaluated at the claimed stage point. -/
theorem claim_c2_witness :
    Tableau.wf ExplicitEuler ∧
    (stages constOneField ExplicitEuler 0 zeroT 1).getD 0 zeroT =
      constOneField ((0 : ℚ) + ExplicitEuler.c.getD 0 0 * 1)
        (fun p => zeroT p + FloatVal.fin 1 * ∑ j ∈ Finset.range 0,
          FloatVal.fin ((ExplicitEuler.a.getD 0 []).getD j 0) *
            (stages constOneField ExplicitEuler 0 zeroT 1).getD j zeroT p) :=
  ⟨ExplicitEuler_wf,
   (claim_c2_step_stage_arithmetic constOneField ExplicitEuler 0 zeroT 1 ExplicitEuler_wf).1 0
     (by decide)⟩

/-- A sum over `FloatVal` with a non-finite term is non-finite. -/
theorem sum_eq_nonfin {s : Finset ℕ} {f : ℕ → FloatVal} {j : ℕ} (hj : j ∈ s)
    (hnf : f j = FloatVal.nonfin) : ∑ i ∈ s, f i = FloatVal.nonfin := by
  rw [← Finset.add_sum_erase s f hj, hnf]
  simp

/-- A tensor with a non-finite slot fails the finiteness reduction. -/
theorem allFin_eq_false {ι : Type} [Fintype ι] {v : Tensor ι} {p : ι}
    (hp : v p = FloatVal.nonfin) : allFin v = false := by
  unfold allFin
  rw [decide_eq_false_iff_not]
  intro hall
  have := hall p
  rw [hp] at this
  simp at this

/-- If the low-order combination fails the finiteness check, the stepper
raises `NonFiniteStateError` in both the fixed and the embedded branch. -/
theorem step_nonfin_ylow {ι : Type} [Fintype ι] {field : VectorField ι} {tab : Tableau}
    {t : ℚ} {y : Tensor ι} {h : ℚ}
    (hfalse : allFin (fun p => y p + FloatVal.fin h * wsum tab.b_low (stages field tab t y h) p)
      = false) :
    step field tab t y h = Except.error SolverError.nonFiniteState := by
  unfold step
  cases tab.b_high <;> simp [hfalse]

/-- A stepper error propagates through one loop iteration unchanged. -/
theorem integrateStep_of_step_error {ι : Type} [Fintype ι] {field : VectorField ι}
    {tab : Tableau} {ctrl : Controller ι} {t1 : ℚ} {s : LoopSt ι} {e : SolverError}
    (hstep : step field tab s.1 s.2.1 (min s.2.2 (t1 - s.1)) = Except.error e) :
    integrateStep field tab ctrl t1 s = Except.error e := by
  simp only [integrateStep, hstep]

/-- An accepted iteration advances `t` by the clamped step, adopts the
stepper's candidate state and the controller's next step size. -/
theorem integrateStep_accept {ι : Type} [Fintype ι] {field : VectorField ι}
    {tab : Tableau} {ctrl : Controller ι} {t1 t h : ℚ} {y : Tensor ι}
    {out : StepOutcome ι} {hn : ℚ}
    (hstep : step field tab t y (min h (t1 - t)) = Except.ok out)
    (hctrl : ctrl out.error_estimate y out.y_next (min h (t1 - t)) = Except.ok (true, hn)) :
    integrateStep field tab ctrl t1 (t, y, h) = Except.ok (t + min h (t1 - t), out.y_next, hn) := by
  simp only [integrateStep, hstep, hctrl, if_true]

/-- A rejected iteration keeps `(t, y)` and only adopts the controller's
shrunk step size: the same step is retried without advancing `t`. -/
theorem integrateStep_reject {ι : Type} [Fintype ι] {field : VectorField ι}
    {tab : Tableau} {ctrl : Controller ι} {t1 t h : ℚ} {y : Tensor ι}
    {out : StepOutcome ι} {hn : ℚ}
    (hstep : step field tab t y (min h (t1 - t)) = Except.ok out)
    (hctrl : ctrl out.error_estimate y out.y_next (min h (t1 - t)) = Except.ok (false, hn)) :
    integrateStep field tab ctrl t1 (t, y, h) = Except.ok (t, y, hn) := by
  simp only [integrateStep, hstep, hctrl]
  rfl

/-- The state a successful loop iteration hands on: either `(t, y)` are kept
(rejection) or the adopted tensor is a stepper candidate that passed the
finiteness check. -/
theorem integrateStep_ok_cases {ι : Type} [Fintype ι] {field : VectorField ι}
    {tab : Tableau} {ctrl : Controller ι} {t1 : ℚ} {s s' : LoopSt ι}
    (hok : integrateStep field tab ctrl t1 s = Except.ok s') :
    s'.2.1 = s.2.1 ∨
      ∃ out, step field tab s.1 s.2.1 (min s.2.2 (t1 - s.1)) = Except.ok out ∧
        s'.2.1 = out.y_next := by
  simp only [integrateStep] at hok
  split at hok
  · cases hok
  · rename_i out hstep
    split at hok
    · cases hok
    · rename_i pr acc hn hctrl
      split at hok
      · cases hok
        exact Or.inr ⟨out, hstep, rfl⟩
      · cases hok
        exact Or.inl rfl

/-- Tensor finiteness is an invariant of the integration loop. -/
theorem integrateGo_allFin {ι : Type} [Fintype ι] {field : VectorField ι}
    {tab : Tableau} {ctrl : Controller ι} {t1 : ℚ} :
    ∀ (n : ℕ) (s : LoopSt ι), allFin s.2.1 = true →
      ∀ {yf : Tensor ι}, integrateGo field tab ctrl t1 n s = Except.ok yf →
        allFin yf = true := by
  intro n
  induction n with
  | zero =>
    intro s hs yf hok
    simp only [integrateGo] at hok
    split at hok
    · cases hok; exact hs
    · cases hok
  | succ n ih =>
    intro s hs yf hok
    simp only [integrateGo] at hok
    split at hok
    · cases hok; exact hs
    · cases hstep : integrateStep field tab ctrl t1 s with
      | error e => rw [hstep] at hok; cases hok
      | ok s' =>
        rw [hstep] at hok
        refine ih s' ?_ hok
        rcases integrateStep_ok_cases hstep with hkeep | ⟨out, hsok, hnew⟩
        · rw [hkeep]; exact hs
        · rw [hnew]
          exact (step_ok_spec hsok).2.1

/-- C4: a non-finite (NaN/Inf) value produced by the vector field at any
stage of a (well-formed-tableau) step makes the stepper raise
`NonFiniteStateError`; a first-iteration stepper failure propagates out of
`integrate`; and a non-finite value is never silently carried into a
successful result — any tensor `integrate` returns from a finite start is
finite in every slot. -/
theorem claim_c4_nonfinite_raises {ι : Type} [Fintype ι] :
    (∀ (field : VectorField ι) (tab : Tableau) (t : ℚ) (y : Tensor ι) (h : ℚ),
      tab.wf →
      (∃ i, i < tab.c.length ∧
        ∃ p, (stages field tab t y h).getD i zeroT p = FloatVal.nonfin) →
      step field tab t y h = Except.error SolverError.nonFiniteState) ∧
    (∀ (field : VectorField ι) (tab : Tableau) (ctrl : Controller ι) (t0 t1 : ℚ)
      (y0 : Tensor ι) (dt : ℚ) (n : ℕ),
      ¬ t1 ≤ t0 →
      step field tab t0 y0 (min dt (t1 - t0)) = Except.error SolverError.nonFiniteState →
      integrate field tab ctrl t0 t1 y0 dt (n + 1) = Except.error SolverError.nonFiniteState) ∧
    (∀ (field : VectorField ι) (tab : Tableau) (ctrl : Controller ι) (t0 t1 : ℚ)
      (y0 : Tensor ι) (dt : ℚ) (maxSteps : ℕ) (yf : Tensor ι),
      allFin y0 = true →
      integrate field tab ctrl t0 t1 y0 dt maxSteps = Except.ok yf →
      allFin yf = true) := by
  refine ⟨fun field tab t y h hwf hnf => ?_, fun field tab ctrl t0 t1 y0 dt n h01 hstep => ?_,
    fun field tab ctrl t0 t1 y0 dt maxSteps yf hy0 hok => ?_⟩
  · obtain ⟨i, hi, p, hp⟩ := hnf
    obtain ⟨_hs, hbl, _hal, _har, _hbh⟩ := hwf
    refine step_nonfin_ylow (@allFin_eq_false _ _ _ p ?_)
    have hws : wsum tab.b_low (stages field tab t y h) p = FloatVal.nonfin := by
      rw [wsum_eq_sum _ _ _ (by rw [hbl, stages_length])]
      refine @sum_eq_nonfin _ _ i (Finset.mem_range.mpr (by rw [hbl]; exact hi)) ?_
      rw [hp]
      simp
    rw [hws]
    simp
  · have hit : integrateStep field tab ctrl t1 (t0, y0, dt) =
        Except.error SolverError.nonFiniteState :=
      integrateStep_of_step_error hstep
    simp only [integrate, integrateGo, if_neg h01, hit]
  · exact integrateGo_allFin maxSteps (t0, y0, dt) hy0 hok

/-- Witness for C4 at concrete inputs: the NaN-returning field makes the
Euler step raise `NonFiniteStateError`, and a successful zero-width
integration of a finite state stays finite. -/
theorem claim_c4_witness :
    step nanField ExplicitEuler 0 zeroT 1 = Except.error SolverError.nonFiniteState ∧
    allFin (zeroT : Tensor Unit) = true :=
  ⟨(@claim_c4_nonfinite_raises Unit _).1 nanField ExplicitEuler 0 zeroT 1 ExplicitEuler_wf
      ⟨0, by decide, (), rfl⟩,
   (@claim_c4_nonfinite_raises Unit _).2.2 constOneField ExplicitEuler (fixedCtrl 1) 0 0 zeroT 1
      1 zeroT (by decide) rfl⟩

/-- One Explicit Euler step of the decay field `dy/dt = -y` from value `c`,
fully evaluated: the single stage is `k_0 = -y`, the update is
`y + h * 1 * k_0`. -/
theorem euler_decay_step_eval (t c h : ℚ) :
    step decayField ExplicitEuler t (fun _ : Unit => FloatVal.fin c) h =
      Except.ok ⟨fun _ : Unit => FloatVal.fin (c + h * (1 * (-1 * (c + h * 0)) + 0)), none⟩ :=
  rfl

/-- One loop iteration of the fixed-step Euler decay run multiplies the
state by `1 - h` and advances `t` by `h` (when `h` is within the remaining
interval, so the clamp keeps it). -/
theorem euler_decay_iter (t c h : ℚ) (hle : h ≤ 1 - t) :
    integrateStep decayField ExplicitEuler (fixedCtrl (1 / 10)) 1
      (t, fun _ : Unit => FloatVal.fin c, h) =
      Except.ok (t + h, fun _ : Unit => FloatVal.fin (c * (1 - h)), 1 / 10) := by
  have hmin : min h (1 - t) = h := min_eq_left hle
  have hcv : c + h * (1 * (-1 * (c + h * 0)) + 0) = c * (1 - h) := by ring
  simp only [integrateStep, hmin, euler_decay_step_eval, fixedCtrl]
  simp only [hcv, if_true]

/-- Unroll the last iteration of `stepN`. -/
theorem stepN_succ_last {ι : Type} [Fintype ι] (field : VectorField ι) (tab : Tableau)
    (ctrl : Controller ι) (t1 : ℚ) (n : ℕ) (s : LoopSt ι) :
    stepN field tab ctrl t1 (n + 1) s =
      match stepN field tab ctrl t1 n s with
      | Except.error e => Except.error e
      | Except.ok s' => integrateStep field tab ctrl t1 s' := by
  induction n generalizing s with
  | zero =>
    cases hstep : integrateStep field tab ctrl t1 s <;> simp [stepN, hstep]
  | succ n ih =>
    cases hstep : integrateStep field tab ctrl t1 s with
    | error e => simp [stepN, hstep]
    | ok s' =>
      have hl : stepN field tab ctrl t1 (n + 1 + 1) s = stepN field tab ctrl t1 (n + 1) s' := by
        simp [stepN, hstep]
      have hr : stepN field tab ctrl t1 (n + 1) s = stepN field tab ctrl t1 n s' := by
        simp [stepN, hstep]
      rw [hl, hr, ih s']

/-- The fixed-step Euler decay run: after `n` accepted steps the state is
exactly `(1 - 1/10)^n` and the clock is at `n/10`. -/
theorem euler_decay_trajectory : ∀ n : ℕ, n ≤ 10 →
    stepN decayField ExplicitEuler (fixedCtrl (1 / 10)) 1 n
      ((0 : ℚ), (fun _ : Unit => FloatVal.fin 1), 1 / 10) =
      Except.ok ((n : ℚ) / 10, (fun _ : Unit => FloatVal.fin ((1 - 1 / 10 : ℚ) ^ n)), 1 / 10) := by
  intro n
  induction n with
  | zero =>
    intro _
    simp [stepN]
  | succ n ih =>
    intro hn
    have hrec := ih (le_trans (Nat.le_succ n) hn)
    rw [stepN_succ_last, hrec]
    show integrateStep decayField ExplicitEuler (fixedCtrl (1 / 10)) 1
      ((n : ℚ) / 10, (fun _ : Unit => FloatVal.fin ((1 - 1 / 10 : ℚ) ^ n)), 1 / 10) = _
    have hn9 : (n : ℚ) ≤ 9 := by
      have : n ≤ 9 := Nat.lt_succ_iff.mp hn
      exact_mod_cast this
    have hle : (1 : ℚ) / 10 ≤ 1 - (n : ℚ) / 10 := by linarith
    rw [euler_decay_iter ((n : ℚ) / 10) ((1 - 1 / 10 : ℚ) ^ n) (1 / 10) hle]
    have h1 : (n : ℚ) / 10 + 1 / 10 = ((n + 1 : ℕ) : ℚ) / 10 := by push_cast; ring
    have h2 : (1 - 1 / 10 : ℚ) ^ n * (1 - 1 / 10) = (1 - 1 / 10 : ℚ) ^ (n + 1) :=
      (pow_succ (1 - 1 / 10 : ℚ) n).symm
    rw [h1, h2]

/-- C1: for the scalar ODE `dy/dt = -y` integrated with the Explicit Euler
tableau in fixed-step mode with `dt = 1/10` from `t0 = 0` to `t1 = 1`
starting at `y0 = 1`, the state after `n` accepted steps is exactly the
analytic discretization `(1 - 1/10)^n` (the model computes in exact
rationals, so the difference is `0`, within the claimed `1e-9`), for every
`n` with `0 <= n <= 10`. -/
theorem claim_c1_euler_fixed_decay (n : ℕ) (hn : n ≤ 10) :
    stepN decayField ExplicitEuler (fixedCtrl (1 / 10)) 1 n
      ((0 : ℚ), (fun _ : Unit => FloatVal.fin 1), 1 / 10) =
      Except.ok ((n : ℚ) / 10, (fun _ : Unit => FloatVal.fin ((1 - 1 / 10 : ℚ) ^ n)), 1 / 10) ∧
    |(1 - 1 / 10 : ℚ) ^ n - (1 - 1 / 10 : ℚ) ^ n| ≤ 1 / 1000000000 :=
  ⟨euler_decay_trajectory n hn, by simp⟩

/-- Witness for C1 at `n = 10`: the full ten-step run lands on `t = 1` with
state `(1 - 1/10)^10`. -/
theorem claim_c1_witness :
    stepN decayField ExplicitEuler (fixedCtrl (1 / 10)) 1 10
      ((0 : ℚ), (fun _ : Unit => FloatVal.fin 1), 1 / 10) =
      Except.ok (((10 : ℕ) : ℚ) / 10, (fun _ : Unit => FloatVal.fin ((1 - 1 / 10 : ℚ) ^ (10 : ℕ))),
        1 / 10) ∧
    |(1 - 1 / 10 : ℚ) ^ (10 : ℕ) - (1 - 1 / 10 : ℚ) ^ (10 : ℕ)| ≤ 1 / 1000000000 :=
  claim_c1_euler_fixed_decay 10 (by decide)

/-- The time component after a successful loop iteration: unchanged on
rejection, advanced by the clamped step on acceptance. -/
theorem integrateStep_ok_t {ι : Type} [Fintype ι] {field : VectorField ι}
    {tab : Tableau} {ctrl : Controller ι} {t1 : ℚ} {s s' : LoopSt ι}
    (hok : integrateStep field tab ctrl t1 s = Except.ok s') :
    s'.1 = s.1 ∨ s'.1 = s.1 + min s.2.2 (t1 - s.1) := by
  simp only [integrateStep] at hok
  split at hok
  · cases hok
  · split at hok
    · cases hok
    · split at hok
      · cases hok
        exact Or.inr rfl
      · cases hok
        exact Or.inl rfl

/-- C6: with `t0 <= t1`, every state the integration loop reaches satisfies
`t <= t1`: the trial step is clamped to `min(h, t1 - t)`, so an accepted
iteration moves `t` to `min(t + h, t1)` — never past `t1` — and an
iteration whose unclamped step would overshoot (`t1 - h <= t`) lands
exactly on `t1`. -/
theorem claim_c6_never_past_t1 {ι : Type} [Fintype ι] (field : VectorField ι)
    (tab : Tableau) (ctrl : Controller ι) (t0 t1 : ℚ) (y0 : Tensor ι) (h0 : ℚ)
    (h01 : t0 ≤ t1) :
    (∀ s : LoopSt ι, Reaches field tab ctrl t1 (t0, y0, h0) s → s.1 ≤ t1) ∧
    (∀ s s' : LoopSt ι, integrateStep field tab ctrl t1 s = Except.ok s' →
      s'.1 = s.1 ∨ s'.1 = min (s.1 + s.2.2) t1) ∧
    (∀ s s' : LoopSt ι, integrateStep field tab ctrl t1 s = Except.ok s' →
      t1 - s.2.2 ≤ s.1 → s'.1 = s.1 ∨ s'.1 = t1) := by
  have hstep : ∀ s s' : LoopSt ι, integrateStep field tab ctrl t1 s = Except.ok s' →
      s'.1 = s.1 ∨ s'.1 = min (s.1 + s.2.2) t1 := by
    intro s s' hok
    rcases integrateStep_ok_t hok with hkeep | hadv
    · exact Or.inl hkeep
    · refine Or.inr ?_
      rw [hadv]
      have ht : s.1 + (t1 - s.1) = t1 := by ring
      rw [← min_add_add_left, ht]
  refine ⟨fun s hr => ?_, hstep, fun s s' hok hrem => ?_⟩
  · induction hr with
    | refl => exact h01
    | next hab hbc ih =>
      rename_i a b
      rcases hstep _ _ hbc with hkeep | hadv
      · rw [hkeep]; exact ih
      · rw [hadv]
        exact min_le_right _ _
  · rcases hstep s s' hok with hkeep | hadv
    · exact Or.inl hkeep
    · refine Or.inr ?_
      rw [hadv]
      exact min_eq_right (by linarith)

/-- Witness for C6: the start state of a concrete run is reachable and its
clock respects the bound. -/
theorem claim_c6_witness :
    ((0 : ℚ), (zeroT : Tensor Unit), (1 : ℚ)).1 ≤ 1 :=
  (claim_c6_never_past_t1 constOneField ExplicitEuler (fixedCtrl 1) 0 1 zeroT 1
    (by norm_num)).1 (0, zeroT, 1) (Reaches.refl _)

/-- `clampR lo hi` agrees with the `clamp(x, lo, hi) = max lo (min x hi)`
formulation whenever `lo <= hi`. -/
theorem clampR_eq_max_min {lo hi x : ℝ} (hlohi : lo ≤ hi) :
    clampR lo hi x = max lo (min x hi) := by
  unfold clampR
  split_ifs with h1 h2
  · rw [min_eq_left (le_trans h1.le hlohi), max_eq_left h1.le]
  · rw [min_eq_right h2.le, max_eq_right hlohi]
  · rw [min_eq_left (not_lt.mp h2), max_eq_right (not_lt.mp h1)]

/-- C3: whenever the updated step size stays at or above the configured
minimum, the controller returns a decision: it accepts exactly when the
scaled error norm `e` is at most `1.0`, and the returned step size is
`h_current * clamp(0.9 * e^(-1/(order+1)), 0.2, 5.0)`; and on rejection the
integration loop retries the same `(t, y)` with the controller's `h_next`
without advancing `t`. -/
theorem claim_c3_accept_and_update {ι : Type} [Fintype ι] :
    (∀ (ord : ℕ) (minStep atol rtol : ℝ) (y ynext err : ι → ℝ) (h : ℝ),
      minStep ≤ hNextR ord (scaledErrNorm atol rtol y ynext err) h →
      ∃ b, decideCtrl ord minStep atol rtol y ynext err h =
        Except.ok (b, h * max (1 / 5)
          (min ((9 / 10) * (scaledErrNorm atol rtol y ynext err) ^
            (-(1 : ℝ) / ((ord : ℝ) + 1))) 5)) ∧
        (b = true ↔ scaledErrNorm atol rtol y ynext err ≤ 1)) ∧
    (∀ (field : VectorField Unit) (tab : Tableau) (ctrl : Controller Unit)
      (t1 t h : ℚ) (y : Tensor Unit) (out : StepOutcome Unit) (hn : ℚ),
      step field tab t y (min h (t1 - t)) = Except.ok out →
      ctrl out.error_estimate y out.y_next (min h (t1 - t)) = Except.ok (false, hn) →
      integrateStep field tab ctrl t1 (t, y, h) = Except.ok (t, y, hn)) := by
  refine ⟨fun ord minStep atol rtol y ynext err h hge => ?_,
    fun field tab ctrl t1 t h y out hn hstep hctrl => integrateStep_reject hstep hctrl⟩
  refine ⟨if scaledErrNorm atol rtol y ynext err ≤ 1 then true else false, ?_, ?_⟩
  · unfold decideCtrl
    rw [if_neg (not_lt.mpr hge)]
    unfold hNextR
    rw [clampR_eq_max_min (by norm_num : (1 / 5 : ℝ) ≤ 5)]
  · split_ifs with hacc
    · simp [hacc]
    · simp [hacc]

/-- The scaled RMS error norm of the one-slot tensors used in the
controller witnesses: unit error against `atol = 1`, `rtol = 0`. -/
theorem scaledErrNorm_unit_one :
    @scaledErrNorm (Fin 1) _ 1 0 (fun _ => 0) (fun _ => 0) (fun _ => 1) = 1 := by
  unfold scaledErrNorm
  simp

/-- Witness for C3 at concrete inputs: with scaled error norm exactly `1`
the controller accepts and returns `h * 0.9`. -/
theorem claim_c3_witness :
    (1 : ℝ) / 10 ≤ hNextR 1 (@scaledErrNorm (Fin 1) _ 1 0 (fun _ => 0) (fun _ => 0) (fun _ => 1)) 1 ∧
    ∃ b, @decideCtrl (Fin 1) _ 1 (1 / 10) 1 0 (fun _ => 0) (fun _ => 0) (fun _ => 1) 1 =
      Except.ok (b, 1 * max (1 / 5)
        (min ((9 / 10) * (@scaledErrNorm (Fin 1) _ 1 0 (fun _ => 0) (fun _ => 0) (fun _ => 1)) ^
          (-(1 : ℝ) / (((1 : ℕ) : ℝ) + 1))) 5)) ∧
      (b = true ↔ @scaledErrNorm (Fin 1) _ 1 0 (fun _ => 0) (fun _ => 0) (fun _ => 1) ≤ 1) := by
  have hge : (1 : ℝ) / 10 ≤
      hNextR 1 (@scaledErrNorm (Fin 1) _ 1 0 (fun _ => 0) (fun _ => 0) (fun _ => 1)) 1 := by
    rw [scaledErrNorm_unit_one]
    unfold hNextR clampR
    norm_num [Real.one_rpow]
  exact ⟨hge, (@claim_c3_accept_and_update (Fin 1) _).1 1 (1 / 10) 1 0
    (fun _ => 0) (fun _ => 0) (fun _ => 1) 1 hge⟩

/-- The rejection cascade is a geometric sequence: iterating the step-size
update at a fixed scaled error multiplies the trial step by a fixed clamp
factor each time. -/
theorem shrinkIter_eq_pow (ord : ℕ) (e h0 : ℝ) (n : ℕ) :
    shrinkIter ord e n h0 =
      h0 * (clampR (1 / 5) 5 ((9 / 10) * e ^ (-(1 : ℝ) / ((ord : ℝ) + 1)))) ^ n := by
  induction n with
  | zero => simp [shrinkIter]
  | succ n ih =>
    rw [shrinkIter, ih]
    unfold hNextR
    ring

/-- At scaled error above `1`, the clamp factor lies in `(0, 9/10]`. -/
theorem clampFactor_bounds {ord : ℕ} {e : ℝ} (he : 1 < e) :
    0 < clampR (1 / 5) 5 ((9 / 10) * e ^ (-(1 : ℝ) / ((ord : ℝ) + 1))) ∧
    clampR (1 / 5) 5 ((9 / 10) * e ^ (-(1 : ℝ) / ((ord : ℝ) + 1))) ≤ 9 / 10 := by
  have hden : (0 : ℝ) < (ord : ℝ) + 1 := by positivity
  have hexp : (-(1 : ℝ) / ((ord : ℝ) + 1)) < 0 :=
    div_neg_of_neg_of_pos (by norm_num) hden
  have hrpow : e ^ (-(1 : ℝ) / ((ord : ℝ) + 1)) < 1 :=
    Real.rpow_lt_one_of_one_lt_of_neg he hexp
  have hx : (9 / 10 : ℝ) * e ^ (-(1 : ℝ) / ((ord : ℝ) + 1)) < 9 / 10 := by nlinarith
  unfold clampR
  split_ifs with h1 h2
  · constructor <;> norm_num
  · exact absurd (lt_trans h2 hx) (by norm_num)
  · exact ⟨lt_of_lt_of_le (by norm_num) (not_lt.mp h1), hx.le⟩

/-- C7: when the dynamics keeps the scaled error above `1`, the controller
rejects every step it returns, each rejection multiplies the trial step by
a factor of at most `9/10` (so the step size shrinks geometrically and
cannot shrink forever), and after finitely many shrink iterations the
controller raises `StepSizeUnderflowError` instead of retrying. -/
theorem claim_c7_underflow_raised {ι : Type} [Fintype ι] (ord : ℕ)
    (minStep atol rtol : ℝ) (y ynext err : ι → ℝ) (h0 : ℝ)
    (he : 1 < scaledErrNorm atol rtol y ynext err)
    (hh0 : 0 < h0) (hms : 0 < minStep) :
    (∀ h fr, decideCtrl ord minStep atol rtol y ynext err h = Except.ok fr →
      fr.1 = false) ∧
    (∀ h, 0 < h →
      hNextR ord (scaledErrNorm atol rtol y ynext err) h ≤ (9 / 10) * h) ∧
    (∃ n, decideCtrl ord minStep atol rtol y ynext err
      (shrinkIter ord (scaledErrNorm atol rtol y ynext err) n h0) =
        Except.error SolverError.stepSizeUnderflow) := by
  obtain ⟨hcfpos, hcfle⟩ := @clampFactor_bounds ord (scaledErrNorm atol rtol y ynext err) he
  refine ⟨fun h fr hok => ?_, fun h hh => ?_, ?_⟩
  · simp only [decideCtrl] at hok
    split at hok
    · cases hok
    · cases hok
      simp [not_le.mpr he]
  · unfold hNextR
    have hb : h * clampR (1 / 5) 5 ((9 / 10) * (scaledErrNorm atol rtol y ynext err) ^ (-(1 : ℝ) / ((ord : ℝ) + 1))) ≤ h * (9 / 10) := by nlinarith
    linarith
  · have hcflt1 : clampR (1 / 5) 5
        ((9 / 10) * (scaledErrNorm atol rtol y ynext err) ^ (-(1 : ℝ) / ((ord : ℝ) + 1))) < 1 :=
      lt_of_le_of_lt hcfle (by norm_num)
    obtain ⟨n, hn⟩ := exists_pow_lt_of_lt_one (div_pos hms hh0) hcflt1
    refine ⟨n, ?_⟩
    have hpowpos : (0 : ℝ) < (clampR (1 / 5) 5
        ((9 / 10) * (scaledErrNorm atol rtol y ynext err) ^
          (-(1 : ℝ) / ((ord : ℝ) + 1)))) ^ n := pow_pos hcfpos n
    have hlt : h0 * (clampR (1 / 5) 5
        ((9 / 10) * (scaledErrNorm atol rtol y ynext err) ^
          (-(1 : ℝ) / ((ord : ℝ) + 1)))) ^ n < minStep := by
      rw [mul_comm]
      exact (lt_div_iff₀ hh0).mp hn
    have hnext_lt : hNextR ord (scaledErrNorm atol rtol y ynext err)
        (shrinkIter ord (scaledErrNorm atol rtol y ynext err) n h0) < minStep := by
      rw [shrinkIter_eq_pow]
      unfold hNextR
      nlinarith
    simp only [decideCtrl]
    rw [if_pos hnext_lt]

/-- The scaled RMS error norm of the one-slot tensors used in the underflow
witness: error `2` against `atol = 1`, `rtol = 0`. -/
theorem scaledErrNorm_unit_two :
    @scaledErrNorm (Fin 1) _ 1 0 (fun _ => 0) (fun _ => 0) (fun _ => 2) = 2 := by
  unfold scaledErrNorm
  norm_num
  rw [show (4 : ℝ) = 2 ^ 2 by norm_num, Real.sqrt_sq (by norm_num : (0 : ℝ) ≤ 2)]

/-- Witness for C7 at concrete inputs: constant scaled error `2` with
`h0 = 1` and `min_step = 1/2` reaches `StepSizeUnderflowError` after
finitely many shrink iterations. -/
theorem claim_c7_witness :
    (1 : ℝ) < @scaledErrNorm (Fin 1) _ 1 0 (fun _ => 0) (fun _ => 0) (fun _ => 2) ∧
    ∃ n, @decideCtrl (Fin 1) _ 1 (1 / 2) 1 0 (fun _ => 0) (fun _ => 0) (fun _ => 2)
      (shrinkIter 1 (@scaledErrNorm (Fin 1) _ 1 0 (fun _ => 0) (fun _ => 0) (fun _ => 2)) n 1) =
        Except.error SolverError.stepSizeUnderflow := by
  have he : (1 : ℝ) < @scaledErrNorm (Fin 1) _ 1 0 (fun _ => 0) (fun _ => 0) (fun _ => 2) := by
    rw [scaledErrNorm_unit_two]
    norm_num
  exact ⟨he, (@claim_c7_underflow_raised (Fin 1) _ 1 (1 / 2) 1 0 (fun _ => 0) (fun _ => 0)
    (fun _ => 2) 1 he (by norm_num) (by norm_num)).2.2⟩
